import Mathlib

/-!
Verification development for the madigan market-simulation and accounting
engine (C++ sources: `Portfolio.h` declarations, `DataSource.h`, the Synth
implementation, and the Python accounting prototype `transaction_margin`).

Numeric state held in C++ `double`s is embedded as `ℚ` where only field
arithmetic occurs (the accounting ledger), and as `ℝ` where the code calls
`std::sin` (the Synth generator).
-/

namespace Madigan

/-- Accounting state of `madigan::Portfolio` (Portfolio.h): cash, the signed
position ledger, per-asset mean entry prices, scalar used margin, per-asset
borrowed margin, the required/maintenance margin fractions, the borrowed
current-price snapshot `currentPrices_`, and the `assetIdx_` code-to-index
map (an association list standing for the `unordered_map`). -/
structure Portfolio (n : ℕ) where
  cash : ℚ
  ledger : Fin n → ℚ
  meanEntryPrices : Fin n → ℚ
  usedMargin : ℚ
  borrowedMargin : Fin n → ℚ
  requiredMargin : ℚ
  maintenanceMargin : ℚ
  currentPrices : Fin n → ℚ
  assetIdx : List (String × ℕ)

/-- Modelled from the spec: `Portfolio::equity` (declared in Portfolio.h but
its body is not among the sources); spec invariant 2 defines
equity = cash + Σ(position_i × price_i) − Σ(borrowedMargin_i), matching the
Python prototype `equity` property in the accounting notebook. -/
def equity {n : ℕ} (pf : Portfolio n) : ℚ :=
  pf.cash + (∑ i, pf.ledger i * pf.currentPrices i) - ∑ i, pf.borrowedMargin i

/-- Modelled from the spec: the open/increase branch of
`Portfolio::handleTransaction` (body not among the sources), following the
section 4.2 block: cash -= fundedByCash + transactionCost,
borrowedMargin[asset] += notional×(1−r), usedMargin += |fundedByCash|,
ledger[asset] += units, with the mean entry price becoming the size-weighted
average of the prior and new entries. -/
def openIncrease {n : ℕ} (pf : Portfolio n) (a : Fin n)
    (price units cost : ℚ) : Portfolio n :=
  { pf with
    cash := pf.cash - (units * price * pf.requiredMargin + cost)
    borrowedMargin := Function.update pf.borrowedMargin a
      (pf.borrowedMargin a + units * price * (1 - pf.requiredMargin))
    usedMargin := pf.usedMargin + |units * price * pf.requiredMargin|
    ledger := Function.update pf.ledger a (pf.ledger a + units)
    meanEntryPrices :=
      if pf.ledger a + units = 0 then pf.meanEntryPrices
      else Function.update pf.meanEntryPrices a
        ((pf.ledger a * pf.meanEntryPrices a + units * price)
          / (pf.ledger a + units)) }

/-- Modelled from the spec: the reduce/close branch of
`Portfolio::handleTransaction` (body not among the sources). Section 4.2:
realize P&L = (price − meanEntryPrice) × unitsClosed into cash, leave the
mean entry price unchanged, and reduce usedMargin/borrowedMargin
proportionally to the closed fraction. The proportional reductions are
realized as margin flows at the mean entry price, and the cash-funded
fraction of the closed notional is returned to cash, which is the unique
reading under which the binding equity-conservation invariant of
sections 3/8 holds (section 9 directs an implementation to pick the
consistent realized-P&L rule). -/
def reduceClose {n : ℕ} (pf : Portfolio n) (a : Fin n)
    (price units cost : ℚ) : Portfolio n :=
  { pf with
    cash := pf.cash - units * pf.meanEntryPrices a * pf.requiredMargin
      + (pf.meanEntryPrices a - price) * units - cost
    borrowedMargin := Function.update pf.borrowedMargin a
      (pf.borrowedMargin a + units * pf.meanEntryPrices a * (1 - pf.requiredMargin))
    usedMargin := pf.usedMargin - |units * pf.meanEntryPrices a * pf.requiredMargin|
    ledger := Function.update pf.ledger a (pf.ledger a + units) }

/-- Modelled from the spec: `Portfolio::handleTransaction` on an asset index
(declared at Portfolio.h, body not among the sources). A trade that keeps or
opens the sign of the position takes the open/increase branch; a trade
against the position not crossing zero takes the reduce/close branch; a
sign-flip is split into a full close of the existing position followed by a
fresh open at the transaction price for the residual units, with the cost
charged once. -/
def handleTransaction {n : ℕ} (pf : Portfolio n) (a : Fin n)
    (price units cost : ℚ) : Portfolio n :=
  if 0 ≤ pf.ledger a * units then openIncrease pf a price units cost
  else if |units| ≤ |pf.ledger a| then reduceClose pf a price units cost
  else openIncrease (reduceClose pf a price (-pf.ledger a) 0) a price
    (units + pf.ledger a) cost

/-- Modelled from the spec: `Portfolio::close` on an asset index (declared at
Portfolio.h, body not among the sources): computes the exact units needed to
flatten the position and delegates to the transaction operation. -/
def close {n : ℕ} (pf : Portfolio n) (a : Fin n) (price cost : ℚ) : Portfolio n :=
  handleTransaction pf a price (-pf.ledger a) cost

lemma sum_update_univ {n : ℕ} (f : Fin n → ℚ) (a : Fin n) (v : ℚ) :
    ∑ i, Function.update f a v i = (∑ i, f i) + (v - f a) := by
  rw [Finset.sum_update_of_mem (Finset.mem_univ a),
    Finset.sum_eq_sum_diff_singleton_add (Finset.mem_univ a) f]
  ring

lemma sum_update_mul {n : ℕ} (f g : Fin n → ℚ) (a : Fin n) (v : ℚ) :
    ∑ i, Function.update f a v i * g i = (∑ i, f i * g i) + (v - f a) * g a := by
  have h : ∀ i, Function.update f a v i * g i
      = Function.update (fun j => f j * g j) a (v * g a) i := by
    intro i
    by_cases hia : i = a
    · subst hia; simp
    · simp [Function.update_noteq hia]
  calc ∑ i, Function.update f a v i * g i
      = ∑ i, Function.update (fun j => f j * g j) a (v * g a) i :=
        Finset.sum_congr rfl (fun i _ => h i)
    _ = (∑ i, f i * g i) + (v * g a - f a * g a) := sum_update_univ _ a _
    _ = (∑ i, f i * g i) + (v - f a) * g a := by ring

lemma equity_openIncrease {n : ℕ} (pf : Portfolio n) (a : Fin n)
    (price units cost : ℚ) :
    equity (openIncrease pf a price units cost)
      = equity pf + units * (pf.currentPrices a - price) - cost := by
  simp only [equity, openIncrease]
  rw [sum_update_mul, sum_update_univ]
  ring

lemma equity_reduceClose {n : ℕ} (pf : Portfolio n) (a : Fin n)
    (price units cost : ℚ) :
    equity (reduceClose pf a price units cost)
      = equity pf + units * (pf.currentPrices a - price) - cost := by
  simp only [equity, reduceClose]
  rw [sum_update_mul, sum_update_univ]
  ring

/-- In every branch, a transaction changes equity exactly by the
mark-to-market gap between the current price and the transaction price,
minus the transaction cost. -/
lemma equity_handleTransaction {n : ℕ} (pf : Portfolio n) (a : Fin n)
    (price units cost : ℚ) :
    equity (handleTransaction pf a price units cost)
      = equity pf + units * (pf.currentPrices a - price) - cost := by
  unfold handleTransaction
  split
  · exact equity_openIncrease pf a price units cost
  · split
    · exact equity_reduceClose pf a price units cost
    · rw [equity_openIncrease, equity_reduceClose]
      simp only [reduceClose]
      ring

/-- C1: for every Portfolio state and every asset, executing a transaction
(handleTransaction) with zero transaction cost at the portfolio's own
current price for that asset leaves equity() unchanged, whether the trade
opens a position, increases it, partially or fully closes it, or flips its
sign. -/
theorem handleTransaction_at_current_price_preserves_equity
    {n : ℕ} (pf : Portfolio n) (a : Fin n) (units : ℚ) :
    equity (handleTransaction pf a (pf.currentPrices a) units 0) = equity pf := by
  rw [equity_handleTransaction]
  ring

/-- C4: opening U units at price P on a previously flat asset and then
fully closing at the same price P, both with zero transaction cost, returns
the asset's ledger entry to 0 and cash to its pre-trade value; `close` is
exactly the offsetting transaction of -U units. -/
theorem open_then_close_round_trip {n : ℕ} (pf : Portfolio n) (a : Fin n)
    (P U : ℚ) (h : pf.ledger a = 0) :
    (close (handleTransaction pf a P U 0) a P 0).ledger a = 0 ∧
    (close (handleTransaction pf a P U 0) a P 0).cash = pf.cash ∧
    close (handleTransaction pf a P U 0) a P 0
      = handleTransaction (handleTransaction pf a P U 0) a P (-U) 0 := by
  have hpf1 : handleTransaction pf a P U 0 = openIncrease pf a P U 0 := by
    unfold handleTransaction
    rw [h]
    simp
  have hl1 : (handleTransaction pf a P U 0).ledger a = U := by
    rw [hpf1]
    simp [openIncrease, h]
  have hclose : close (handleTransaction pf a P U 0) a P 0
      = handleTransaction (handleTransaction pf a P U 0) a P (-U) 0 := by
    unfold close
    rw [hl1]
  by_cases hU : U = 0
  · subst hU
    have h2 : handleTransaction (handleTransaction pf a P 0 0) a P (-0) 0
        = openIncrease (handleTransaction pf a P 0 0) a P (-0) 0 := by
      unfold handleTransaction
      simp
    refine ⟨?_, ?_, hclose⟩
    · rw [hclose, h2]
      simp [openIncrease, hl1]
    · rw [hclose, h2, hpf1]
      simp [openIncrease]
  · have hm1 : (handleTransaction pf a P U 0).meanEntryPrices a = P := by
      rw [hpf1]
      simp only [openIncrease, h, zero_add]
      rw [if_neg hU]
      rw [Function.update_same, zero_mul, zero_add, mul_div_cancel_left₀ P hU]
    set pf1 := handleTransaction pf a P U 0 with hdef
    have hcond : ¬ 0 ≤ pf1.ledger a * (-U) := by
      rw [hl1]
      have hpos : 0 < U * U := mul_self_pos.mpr hU
      nlinarith
    have habs : |(-U)| ≤ |pf1.ledger a| := by
      rw [hl1, abs_neg]
    have hred : handleTransaction pf1 a P (-U) 0 = reduceClose pf1 a P (-U) 0 := by
      unfold handleTransaction
      rw [if_neg hcond, if_pos habs]
    refine ⟨?_, ?_, hclose⟩
    · rw [hclose, hred]
      simp [reduceClose, hl1]
    · rw [hclose, hred]
      simp only [reduceClose, hm1]
      rw [hpf1]
      simp only [openIncrease]
      ring

/-- Concrete Portfolio over one asset "X" at current price 10, used to
instantiate the hypothesis-bearing theorems. -/
def pfW : Portfolio 1 :=
  ⟨1000000, fun _ => 0, fun _ => 0, 0, fun _ => 0, 1/5, 1/4, fun _ => 10, [("X", 0)]⟩

/-- Witness for C4 at a concrete input. -/
theorem open_then_close_round_trip_witness :
    pfW.ledger 0 = 0 ∧
    ((close (handleTransaction pfW 0 10 1000 0) 0 10 0).ledger 0 = 0 ∧
     (close (handleTransaction pfW 0 10 1000 0) 0 10 0).cash = pfW.cash ∧
     close (handleTransaction pfW 0 10 1000 0) 0 10 0
       = handleTransaction (handleTransaction pfW 0 10 1000 0) 0 10 (-1000) 0) :=
  ⟨rfl, open_then_close_round_trip pfW 0 10 1000 rfl⟩

/-- Advisory risk classification returned by the `checkRisk` overloads
(spec section 4.2 / error taxonomy section 7). -/
inductive RiskInfo where
  | ok
  | insufficientFunds
  | breachesMaintenanceMargin
deriving DecidableEq

/-- Errors raised by the string-keyed Portfolio entry points. -/
inductive PortError where
  | unknownAsset
deriving DecidableEq

/-- Modelled from the spec: the shared computation of the const-qualified
`Portfolio::checkRisk` overloads (declared in Portfolio.h, bodies not among
the sources): simulate the post-trade usedMargin and equity at the current
price and return an advisory classification. -/
def checkRiskCore {n : ℕ} (pf : Portfolio n) (amount : ℚ) : RiskInfo :=
  if equity pf < pf.usedMargin + |amount * pf.requiredMargin| then
    RiskInfo.insufficientFunds
  else if equity pf
      < pf.maintenanceMargin * (pf.usedMargin + |amount * pf.requiredMargin|) then
    RiskInfo.breachesMaintenanceMargin
  else RiskInfo.ok

/-- Modelled from the spec: the no-argument `checkRisk()` snapshot overload;
the second component is the portfolio state after the call. -/
def checkRisk {n : ℕ} (pf : Portfolio n) : RiskInfo × Portfolio n :=
  (checkRiskCore pf 0, pf)

/-- Modelled from the spec: `checkRisk(double amount_to_purchase)`. -/
def checkRiskAmount {n : ℕ} (pf : Portfolio n) (amount : ℚ) :
    RiskInfo × Portfolio n :=
  (checkRiskCore pf amount, pf)

/-- Modelled from the spec: `checkRisk(int assetIdx, double units)`. -/
def checkRiskUnits {n : ℕ} (pf : Portfolio n) (a : Fin n) (units : ℚ) :
    RiskInfo × Portfolio n :=
  (checkRiskCore pf (units * pf.currentPrices a), pf)

/-- Total read of the current-price vector at a raw index (Eigen indexing
out of range is undefined behaviour in the C++; the embedding returns 0). -/
def pricesAt {n : ℕ} (pf : Portfolio n) (i : ℕ) : ℚ :=
  if h : i < n then pf.currentPrices ⟨i, h⟩ else 0

/-- Total read of the ledger at a raw index, as `ledger_(idx)`. -/
def ledgerAt {n : ℕ} (pf : Portfolio n) (i : ℕ) : ℚ :=
  if h : i < n then pf.ledger ⟨i, h⟩ else 0

/-- Modelled from the spec: `checkRisk(string assetCode, double units)`
resolves the code through the asset-index map and classifies; an absent code
is the section 7 UnknownAssetError. The second component is the portfolio
state after the call. -/
def checkRiskCode {n : ℕ} (pf : Portfolio n) (code : String) (units : ℚ) :
    Except PortError RiskInfo × Portfolio n :=
  (match List.lookup code pf.assetIdx with
    | some i => Except.ok (checkRiskCore pf (units * pricesAt pf i))
    | none => Except.error PortError.unknownAsset, pf)

/-- C7: every checkRisk overload leaves the entire Portfolio state unchanged
and only returns an advisory classification, and handleTransaction executes
its accounting unconditionally (the ledger always moves by the requested
units, in every branch, with no risk check gating it). -/
theorem checkRisk_advisory_and_handleTransaction_unconditional
    {n : ℕ} (pf : Portfolio n) (a : Fin n) (price units cost amt uc : ℚ)
    (code : String) :
    (checkRisk pf).2 = pf ∧ (checkRiskAmount pf amt).2 = pf ∧
    (checkRiskUnits pf a units).2 = pf ∧ (checkRiskCode pf code uc).2 = pf ∧
    (handleTransaction pf a price units cost).ledger a = pf.ledger a + units := by
  refine ⟨rfl, rfl, rfl, rfl, ?_⟩
  unfold handleTransaction
  split
  · simp [openIncrease]
  · split
    · simp [reduceClose]
    · simp [openIncrease, reduceClose]
      ring

/-- Modelled from the spec: the int-indexed `handleTransaction` entry with a
raw index (Eigen out-of-range indexing is undefined behaviour; in-range
indices delegate to the accounting). -/
def handleTransactionAt {n : ℕ} (pf : Portfolio n) (i : ℕ)
    (price units cost : ℚ) : Portfolio n :=
  if h : i < n then handleTransaction pf ⟨i, h⟩ price units cost else pf

/-- Raw-index close, as `close(int assetIdx, ...)`. -/
def closeAt {n : ℕ} (pf : Portfolio n) (i : ℕ) (price cost : ℚ) : Portfolio n :=
  if h : i < n then close pf ⟨i, h⟩ price cost else pf

/-- Modelled from the spec: `handleTransaction(string asset, ...)` (body not
among the sources); section 7 makes a transaction referencing an identifier
absent from the bound AssetSet an UnknownAssetError. -/
def handleTransactionStr {n : ℕ} (pf : Portfolio n) (code : String)
    (price units cost : ℚ) : Except PortError (Portfolio n) :=
  match List.lookup code pf.assetIdx with
  | some i => Except.ok (handleTransactionAt pf i price units cost)
  | none => Except.error PortError.unknownAsset

/-- From Portfolio.h: `close(string assetCode, ...)` delegates through the
checked lookup `assetIdx_.at(assetCode)`, which raises for a missing key
(the spec's UnknownAssetError). -/
def closeStr {n : ℕ} (pf : Portfolio n) (code : String) (price cost : ℚ) :
    Except PortError (Portfolio n) :=
  match List.lookup code pf.assetIdx with
  | some i => Except.ok (closeAt pf i price cost)
  | none => Except.error PortError.unknownAsset

/-- C8: calling handleTransaction or close with an asset identifier absent
from the bound AssetSet raises UnknownAssetError; no modified portfolio is
produced. -/
theorem unknown_asset_identifier_errors {n : ℕ} (pf : Portfolio n)
    (code : String) (price units cost : ℚ)
    (h : List.lookup code pf.assetIdx = none) :
    handleTransactionStr pf code price units cost
      = Except.error PortError.unknownAsset ∧
    closeStr pf code price cost = Except.error PortError.unknownAsset := by
  constructor
  · unfold handleTransactionStr
    rw [h]
  · unfold closeStr
    rw [h]

/-- Witness for C8 at a concrete input: "Y" is not an asset code of pfW. -/
theorem unknown_asset_identifier_errors_witness :
    List.lookup "Y" pfW.assetIdx = none ∧
    (handleTransactionStr pfW "Y" 10 5 0 = Except.error PortError.unknownAsset ∧
     closeStr pfW "Y" 10 0 = Except.error PortError.unknownAsset) :=
  ⟨rfl, unknown_asset_identifier_errors pfW "Y" 10 5 0 rfl⟩

lemma lookup_append_self {α β : Type} [BEq α] [LawfulBEq α]
    (l : List (α × β)) (k : α) (v : β) (h : List.lookup k l = none) :
    List.lookup k (l ++ [(k, v)]) = some v := by
  induction l with
  | nil => simp [List.lookup]
  | cons x t ih =>
    obtain ⟨a, b⟩ := x
    rw [List.cons_append]
    by_cases hk : k == a
    · simp [List.lookup, hk] at h
    · simp only [List.lookup, hk] at h ⊢
      exact ih h

/-- From Portfolio.h: `operator[](string code)` returns
`ledger_(assetIdx_[code])`; the unordered_map `operator[]` inserts a
value-initialized index 0 for a missing key. First component: the returned
ledger entry; second: the portfolio after the call. -/
def portfolioGetCode {n : ℕ} (pf : Portfolio n) (code : String) :
    ℚ × Portfolio n :=
  match List.lookup code pf.assetIdx with
  | some i => (ledgerAt pf i, pf)
  | none => (ledgerAt pf 0, { pf with assetIdx := pf.assetIdx ++ [(code, 0)] })

/-- C9: indexing a Portfolio with operator[] on an asset code absent from
the bound AssetSet raises no error: it inserts the code into the asset-index
map with index 0 (a mutation observable by a subsequent lookup) and returns
the ledger position at index 0 - unlike the string overload of close, whose
checked lookup errors on the same code. -/
theorem operator_index_inserts_missing_code {n : ℕ} (pf : Portfolio n)
    (code : String) (price cost : ℚ)
    (h : List.lookup code pf.assetIdx = none) :
    portfolioGetCode pf code
      = (ledgerAt pf 0, { pf with assetIdx := pf.assetIdx ++ [(code, 0)] }) ∧
    List.lookup code (portfolioGetCode pf code).2.assetIdx = some 0 ∧
    closeStr pf code price cost = Except.error PortError.unknownAsset := by
  have hget : portfolioGetCode pf code
      = (ledgerAt pf 0, { pf with assetIdx := pf.assetIdx ++ [(code, 0)] }) := by
    unfold portfolioGetCode
    rw [h]
  refine ⟨hget, ?_, ?_⟩
  · rw [hget]
    exact lookup_append_self pf.assetIdx code 0 h
  · unfold closeStr
    rw [h]

/-- Witness for C9 at a concrete input: "Z" is not an asset code of pfW. -/
theorem operator_index_inserts_missing_code_witness :
    List.lookup "Z" pfW.assetIdx = none ∧
    (portfolioGetCode pfW "Z"
       = (ledgerAt pfW 0, { pfW with assetIdx := pfW.assetIdx ++ [("Z", 0)] }) ∧
     List.lookup "Z" (portfolioGetCode pfW "Z").2.assetIdx = some 0 ∧
     closeStr pfW "Z" 10 0 = Except.error PortError.unknownAsset) :=
  ⟨rfl, operator_index_inserts_missing_code pfW "Z" 10 0 rfl⟩

/-- State of the Python accounting-prototype Portfolio appended to
DataSource.h (the notebook class): `_cash`, scalar `_borrowed_cash`,
`_used_margin`, `initial_margin`, the per-asset ledger, and the module
global `current_prices` captured as a field. -/
structure PyPortfolio (n : ℕ) where
  cash : ℚ
  borrowedCash : ℚ
  usedMargin : ℚ
  initialMargin : ℚ
  ledger : Fin n → ℚ
  currentPrices : Fin n → ℚ

/-- From DataSource.h (appended notebook), `Portfolio.transaction_margin`:
amount = price×units; used = amount×initial_margin;
borrowed_cash += amount×(1−initial_margin); cash −= used;
used_margin += used (signed, no absolute value, no cost parameter);
ledger[asset] += units. -/
def transactionMargin {n : ℕ} (pf : PyPortfolio n) (a : Fin n) (units : ℚ) :
    PyPortfolio n :=
  { pf with
    borrowedCash := pf.borrowedCash
      + pf.currentPrices a * units * (1 - pf.initialMargin)
    cash := pf.cash - pf.currentPrices a * units * pf.initialMargin
    usedMargin := pf.usedMargin + pf.currentPrices a * units * pf.initialMargin
    ledger := Function.update pf.ledger a (pf.ledger a + units) }

/-- From DataSource.h (appended notebook), the prototype `equity` property:
cash + Σ price_i × ledger_i − borrowed_cash. -/
def pyEquity {n : ℕ} (pf : PyPortfolio n) : ℚ :=
  pf.cash + (∑ i, pf.currentPrices i * pf.ledger i) - pf.borrowedCash

/-- The leveraged-scenario prototype portfolio: one asset priced 10, cash
1,000,000, initial margin r = 0.2, empty ledger. -/
def pyPf0 : PyPortfolio 1 := ⟨1000000, 0, 0, 1/5, fun _ => 0, fun _ => 10⟩

/-- Counterexample to C2: selling 1000 units at price 10 with r = 0.2
changes the prototype's used margin by the signed amount −2000, not by the
claimed absolute value |u·p·r| = 2000. -/
theorem transactionMargin_usedMargin_signed_counterexample :
    (transactionMargin pyPf0 0 (-1000)).usedMargin
      ≠ pyPf0.usedMargin + |(-1000 : ℚ) * pyPf0.currentPrices 0 * pyPf0.initialMargin| := by
  simp only [transactionMargin, pyPf0]
  norm_num

/-- C2 (amended): for every margin transaction of signed units u at the
current price p with initial-margin fraction r (the prototype has no
transaction-cost parameter): cash decreases by u·p·r, borrowed cash
increases by u·p·(1−r), used margin increases by the signed u·p·r, and the
ledger entry increases by u; the stated leveraged scenario holds: buying
1000 units at price 10 from cash 1,000,000 with r = 0.2 yields cash 998,000,
borrowed 8,000, used margin 2,000, and equity 1,000,000. -/
theorem transactionMargin_deltas_and_scenario {n : ℕ} (pf : PyPortfolio n)
    (a : Fin n) (u : ℚ) :
    (transactionMargin pf a u).cash
      = pf.cash - u * pf.currentPrices a * pf.initialMargin ∧
    (transactionMargin pf a u).borrowedCash
      = pf.borrowedCash + u * pf.currentPrices a * (1 - pf.initialMargin) ∧
    (transactionMargin pf a u).usedMargin
      = pf.usedMargin + u * pf.currentPrices a * pf.initialMargin ∧
    (transactionMargin pf a u).ledger a = pf.ledger a + u ∧
    (transactionMargin pyPf0 0 1000).cash = 998000 ∧
    (transactionMargin pyPf0 0 1000).borrowedCash = 8000 ∧
    (transactionMargin pyPf0 0 1000).usedMargin = 2000 ∧
    pyEquity (transactionMargin pyPf0 0 1000) = 1000000 := by
  refine ⟨by simp only [transactionMargin]; ring, by simp only [transactionMargin]; ring,
    by simp only [transactionMargin]; ring, by simp [transactionMargin], ?_, ?_, ?_, ?_⟩
  · norm_num [transactionMargin, pyPf0]
  · norm_num [transactionMargin, pyPf0]
  · norm_num [transactionMargin, pyPf0]
  · norm_num [pyEquity, transactionMargin, pyPf0, Fin.sum_univ_one]

/-- State of the Synth periodic generator (the C++ implementation appended
to DDR_DSR.ipynb): parameter vectors freq, mu, amp, the stored initial
phase, the running phase accumulator x (initialized to phase and advanced
by dX on every getData call), and the step size dX. -/
structure SynthState where
  freq : List ℝ
  mu : List ℝ
  amp : List ℝ
  initPhase : List ℝ
  x : List ℝ
  dX : ℝ

/-- From `Synth::initParams`: store the vectors, set x to the phase vector;
the asset count is derived from freq (one asset per frequency). -/
def initParams (freq mu amp phase : List ℝ) (dX : ℝ) : SynthState :=
  ⟨freq, mu, amp, phase, phase, dX⟩

/-- Number of assets of a Synth: `freq.size()` per initParams. -/
def nAssets (s : SynthState) : ℕ := s.freq.length

/-- The source's PI2 macro is a double literal approximating 2π; the
embedding uses the exact value. -/
noncomputable def PI2 : ℝ := 2 * Real.pi

/-- From `Synth::getData`: the i-th output component is
`mu[i] + amp[i] * sin(PI2 * x[i] * freq[i])` (note: x, which starts at the
phase, is multiplied by the frequency inside the sine). -/
noncomputable def synthPrice (s : SynthState) (i : ℕ) : ℝ :=
  s.mu.getD i 0 + s.amp.getD i 0 * Real.sin (PI2 * s.x.getD i 0 * s.freq.getD i 0)

/-- Add dX to the first k entries of a list, as the `x[i] += dX` loop over
`i < nAssets` in `Synth::getData`. -/
def incrFirst (dX : ℝ) : ℕ → List ℝ → List ℝ
  | 0, l => l
  | _ + 1, [] => []
  | k + 1, h :: t => (h + dX) :: incrFirst dX k t

/-- The state mutation performed by one `Synth::getData` call. -/
def synthStepState (s : SynthState) : SynthState :=
  { s with x := incrFirst s.dX s.freq.length s.x }

/-- One `Synth::getData` call: the returned observation and the mutated
state. -/
noncomputable def getData (s : SynthState) : List ℝ × SynthState :=
  ((List.range (nAssets s)).map (synthPrice s), synthStepState s)

/-- The Synth state after t getData calls. -/
def synthAfter (s : SynthState) : ℕ → SynthState
  | 0 => s
  | t + 1 => synthStepState (synthAfter s t)

/-- The observation returned by the getData call made after t prior calls
(so `synthObs s 0` is the first observation). -/
noncomputable def synthObs (s : SynthState) (t : ℕ) : List ℝ :=
  (getData (synthAfter s t)).1

/-- Definition following the spec's words, for comparison with the source:
price_i(t) = mu_i + amp_i·sin(2π·(phase_i + t·freq_i·dX)). -/
noncomputable def specSynthPrice (freq mu amp phase : List ℝ) (dX : ℝ)
    (t i : ℕ) : ℝ :=
  mu.getD i 0 + amp.getD i 0
    * Real.sin (2 * Real.pi * (phase.getD i 0 + t * freq.getD i 0 * dX))

lemma incrFirst_length (dX : ℝ) (k : ℕ) (l : List ℝ) :
    (incrFirst dX k l).length = l.length := by
  induction l generalizing k with
  | nil => cases k <;> rfl
  | cons h t ih =>
    cases k with
    | zero => rfl
    | succ k => simp [incrFirst, ih]

lemma incrFirst_getD (dX : ℝ) (k i : ℕ) (l : List ℝ) (hik : i < k)
    (hil : i < l.length) :
    (incrFirst dX k l).getD i 0 = l.getD i 0 + dX := by
  induction l generalizing k i with
  | nil => simp at hil
  | cons h t ih =>
    cases k with
    | zero => omega
    | succ k =>
      cases i with
      | zero => simp [incrFirst]
      | succ i =>
        simp only [incrFirst, List.getD_cons_succ]
        exact ih k i (by omega) (by simpa using hil)

lemma synthAfter_freq (s : SynthState) (t : ℕ) : (synthAfter s t).freq = s.freq := by
  induction t with
  | zero => rfl
  | succ t ih => simp [synthAfter, synthStepState, ih]

lemma synthAfter_mu (s : SynthState) (t : ℕ) : (synthAfter s t).mu = s.mu := by
  induction t with
  | zero => rfl
  | succ t ih => simp [synthAfter, synthStepState, ih]

lemma synthAfter_amp (s : SynthState) (t : ℕ) : (synthAfter s t).amp = s.amp := by
  induction t with
  | zero => rfl
  | succ t ih => simp [synthAfter, synthStepState, ih]

lemma synthAfter_dX (s : SynthState) (t : ℕ) : (synthAfter s t).dX = s.dX := by
  induction t with
  | zero => rfl
  | succ t ih => simp [synthAfter, synthStepState, ih]

lemma synthAfter_x_length (s : SynthState) (t : ℕ) :
    (synthAfter s t).x.length = s.x.length := by
  induction t with
  | zero => rfl
  | succ t ih => simp [synthAfter, synthStepState, incrFirst_length, ih]

lemma synthAfter_x_getD (s : SynthState) (t i : ℕ) (hi : i < s.freq.length)
    (hix : i < s.x.length) :
    (synthAfter s t).x.getD i 0 = s.x.getD i 0 + t * s.dX := by
  induction t with
  | zero => simp [synthAfter]
  | succ t ih =>
    have hx : i < (synthAfter s t).x.length := by
      rw [synthAfter_x_length]; exact hix
    have hf : i < (synthAfter s t).freq.length := by
      rw [synthAfter_freq]; exact hi
    calc (synthAfter s (t + 1)).x.getD i 0
        = (incrFirst (synthAfter s t).dX (synthAfter s t).freq.length
            (synthAfter s t).x).getD i 0 := rfl
      _ = (synthAfter s t).x.getD i 0 + (synthAfter s t).dX :=
          incrFirst_getD _ _ _ _ hf hx
      _ = s.x.getD i 0 + t * s.dX + s.dX := by rw [ih, synthAfter_dX]
      _ = s.x.getD i 0 + (t + 1 : ℕ) * s.dX := by push_cast; ring

lemma getD_map_range (f : ℕ → ℝ) (n i : ℕ) (hi : i < n) :
    ((List.range n).map f).getD i 0 = f i := by
  rw [List.getD_eq_getElem?_getD, List.getElem?_map, List.getElem?_range hi]
  rfl

/-- Counterexample to C3: for a one-asset Synth with freq 1/2, mu 0, amp 1,
phase 1/2, the first getData observation is sin(π/2) = 1 while the claimed
formula gives sin(π) = 0 — the source multiplies the phase by the frequency
inside the sine, the claimed formula does not. -/
theorem synth_getData_formula_counterexample :
    (synthObs (initParams [1/2] [0] [1] [1/2] (1/100)) 0).getD 0 0
      ≠ specSynthPrice [1/2] [0] [1] [1/2] (1/100) 0 0 := by
  have hL : (synthObs (initParams [1/2] [0] [1] [1/2] (1/100)) 0).getD 0 0 = 1 := by
    show (getData (initParams [1/2] [0] [1] [1/2] (1/100))).1.getD 0 0 = 1
    rw [getData]
    rw [getD_map_range _ _ 0 (by simp [initParams, nAssets])]
    show (0 : ℝ) + 1 * Real.sin (PI2 * (1/2) * (1/2)) = 1
    have harg : PI2 * (1/2 : ℝ) * (1/2) = Real.pi / 2 := by
      rw [PI2]; ring
    rw [harg, Real.sin_pi_div_two]
    norm_num
  have hR : specSynthPrice [1/2] [0] [1] [1/2] (1/100) 0 0 = 0 := by
    show (0 : ℝ) + 1 * Real.sin (2 * Real.pi * ((1/2 : ℝ) + (0 : ℕ) * (1/2) * (1/100))) = 0
    have harg : 2 * Real.pi * ((1/2 : ℝ) + (0 : ℕ) * (1/2) * (1/100)) = Real.pi := by
      push_cast; ring
    rw [harg, Real.sin_pi]
    norm_num
  rw [hL, hR]
  norm_num

/-- C3 (amended): for every asset i and step count t, the noise-free Synth
produces, as the observation of the getData call following t prior calls,
price_i(t) = mu_i + amp_i·sin(2π·freq_i·(phase_i + t·dX)) — the phase and
the accumulated t·dX are both multiplied by the frequency inside the sine. -/
theorem synth_getData_formula (freq mu amp phase : List ℝ) (dX : ℝ) (t i : ℕ)
    (hi : i < freq.length) (hip : i < phase.length) :
    (synthObs (initParams freq mu amp phase dX) t).getD i 0
      = mu.getD i 0 + amp.getD i 0
        * Real.sin (2 * Real.pi * freq.getD i 0 * (phase.getD i 0 + t * dX)) := by
  have hfr : (synthAfter (initParams freq mu amp phase dX) t).freq = freq :=
    synthAfter_freq _ t
  rw [synthObs, getData]
  rw [getD_map_range _ _ i (by rw [nAssets, hfr]; exact hi)]
  rw [synthPrice, synthAfter_mu, synthAfter_amp, hfr]
  rw [synthAfter_x_getD _ t i (by simpa [initParams] using hi)
    (by simpa [initParams] using hip)]
  simp only [initParams]
  have harg : PI2 * (phase.getD i 0 + t * dX) * freq.getD i 0
      = 2 * Real.pi * freq.getD i 0 * (phase.getD i 0 + t * dX) := by
    rw [PI2]; ring
  rw [harg]

/-- Witness for the amended C3 at a concrete input. -/
theorem synth_getData_formula_witness :
    (0 < ([1] : List ℝ).length ∧ 0 < ([0] : List ℝ).length) ∧
    (synthObs (initParams [1] [2] [3] [0] (1/4)) 2).getD 0 0
      = ([2] : List ℝ).getD 0 0 + ([3] : List ℝ).getD 0 0
        * Real.sin (2 * Real.pi * ([1] : List ℝ).getD 0 0
            * (([0] : List ℝ).getD 0 0 + (2 : ℕ) * (1/4))) :=
  ⟨⟨by norm_num, by norm_num⟩,
   synth_getData_formula [1] [2] [3] [0] (1/4) 2 0 (by norm_num) (by norm_num)⟩

/-- Dynamically-typed configuration value, as the `std::any` payloads the
Config map holds: a vector of doubles, a double, or a nested Config. -/
inductive CVal where
  | vecD : List ℝ → CVal
  | num : ℝ → CVal
  | sub : List (String × CVal) → CVal

/-- The `Config` map: string keys to dynamically-typed values. -/
def Config := List (String × CVal)

/-- `config.find(key)` on the Config map. -/
def cfgFind (c : Config) (k : String) : Option CVal := List.lookup k c

/-- Construction failures of `Synth`: `ConfigError` for a missing required
key, `std::bad_any_cast` for a payload of the wrong dynamic type, and
`std::length_error` from the typed-vector constructor's length check. -/
inductive SynthCtorError where
  | configError
  | badAnyCast
  | lengthError
deriving DecidableEq

/-- The key-presence loop of `Synth::Synth(Config)`: true when any of the
required keys freq, mu, amp, phase, dX is absent from the generator
parameters. -/
def missingSynthKey (params : List (String × CVal)) : Bool :=
  (cfgFind params "freq").isNone || (cfgFind params "mu").isNone
    || (cfgFind params "amp").isNone || (cfgFind params "phase").isNone
    || (cfgFind params "dX").isNone

/-- The body of `Synth::Synth(Config)` once "generator_params" has been
extracted: throw ConfigError when a required key is absent, cast the
payloads, and call initParams directly, with no check that the per-asset
vectors have equal lengths. -/
def synthFromParams (params : List (String × CVal)) :
    Except SynthCtorError SynthState :=
  if missingSynthKey params then Except.error SynthCtorError.configError
  else
    match cfgFind params "freq", cfgFind params "mu", cfgFind params "amp",
        cfgFind params "phase", cfgFind params "dX" with
    | some (CVal.vecD freq), some (CVal.vecD mu), some (CVal.vecD amp),
        some (CVal.vecD phase), some (CVal.num dX) =>
      Except.ok (initParams freq mu amp phase dX)
    | _, _, _, _, _ => Except.error SynthCtorError.badAnyCast

/-- From `Synth::Synth(Config)`: throw ConfigError when "generator_params"
is absent; cast it to a Config (a failing cast is std::bad_any_cast) and
continue with the generator parameters. -/
def synthFromConfig (c : Config) : Except SynthCtorError SynthState :=
  match cfgFind c "generator_params" with
  | none => Except.error SynthCtorError.configError
  | some (CVal.sub params) => synthFromParams params
  | some _ => Except.error SynthCtorError.badAnyCast

/-- From `Synth::Synth(vector, ...)`: the typed-parameter-list constructor
calls initParams only when freq, mu, amp and phase have the same length, and
throws std::length_error otherwise. -/
def synthFromVectors (freq mu amp phase : List ℝ) (dX : ℝ) :
    Except SynthCtorError SynthState :=
  if freq.length = mu.length ∧ mu.length = amp.length
      ∧ amp.length = phase.length then
    Except.ok (initParams freq mu amp phase dX)
  else Except.error SynthCtorError.lengthError

/-- A fully-keyed Synth Config holding the given parameter vectors. -/
def mkSynthConfig (freq mu amp phase : List ℝ) (dX : ℝ) : Config :=
  [("generator_params", CVal.sub
    [("freq", CVal.vecD freq), ("mu", CVal.vecD mu), ("amp", CVal.vecD amp),
     ("phase", CVal.vecD phase), ("dX", CVal.num dX)])]

/-- Counterexample to C5: a Config whose per-asset vectors have mismatched
lengths (freq has two entries, mu, amp and phase one each) constructs a
Synth successfully, while the typed-parameter-list constructor rejects the
same vectors — construction does not fail under the mismatch defect when
the parameters arrive through a configuration mapping. -/
theorem synth_config_mismatched_lengths_counterexample :
    (synthFromConfig (mkSynthConfig [1, 2] [1] [1] [1] 1)).isOk = true ∧
    (synthFromVectors [1, 2] [1] [1] [1] 1).isOk = false := by
  constructor
  · rfl
  · rfl

/-- C5 (amended): a missing required key ("generator_params" itself, or any
of freq/mu/amp/phase/dX inside it) is a construction-time ConfigError for
the Config constructor, and mismatched per-asset vector lengths are a
construction-time length error for the typed-parameter-list constructor;
but the Config constructor performs no length validation and constructs an
object from any fully-keyed Config regardless of the vector lengths. -/
theorem synth_construction_validation (c : Config) :
    (cfgFind c "generator_params" = none →
      synthFromConfig c = Except.error SynthCtorError.configError) ∧
    (∀ params : List (String × CVal),
      cfgFind c "generator_params" = some (CVal.sub params) →
      (cfgFind params "freq" = none ∨ cfgFind params "mu" = none
        ∨ cfgFind params "amp" = none ∨ cfgFind params "phase" = none
        ∨ cfgFind params "dX" = none) →
      synthFromConfig c = Except.error SynthCtorError.configError) ∧
    (∀ (freq mu amp phase : List ℝ) (dX : ℝ),
      ¬(freq.length = mu.length ∧ mu.length = amp.length
        ∧ amp.length = phase.length) →
      synthFromVectors freq mu amp phase dX
        = Except.error SynthCtorError.lengthError) ∧
    (∀ (freq mu amp phase : List ℝ) (dX : ℝ),
      synthFromConfig (mkSynthConfig freq mu amp phase dX)
        = Except.ok (initParams freq mu amp phase dX)) := by
  refine ⟨?_, ?_, ?_, ?_⟩
  · intro h
    unfold synthFromConfig
    rw [h]
  · intro params hp hmiss
    have hb : missingSynthKey params = true := by
      unfold missingSynthKey
      rcases hmiss with h | h | h | h | h <;> simp [h]
    unfold synthFromConfig
    rw [hp]
    show synthFromParams params = Except.error SynthCtorError.configError
    unfold synthFromParams
    rw [if_pos hb]
  · intro freq mu amp phase dX h
    unfold synthFromVectors
    rw [if_neg h]
  · intro freq mu amp phase dX
    rfl

/-- Witness for the amended C5 at concrete inputs. -/
theorem synth_construction_validation_witness :
    synthFromConfig [("other", CVal.num 1)]
      = Except.error SynthCtorError.configError ∧
    synthFromConfig [("generator_params", CVal.sub [("freq", CVal.vecD [1])])]
      = Except.error SynthCtorError.configError ∧
    synthFromVectors [1, 2] [1] [1] [1] 1
      = Except.error SynthCtorError.lengthError ∧
    synthFromConfig (mkSynthConfig [1, 2] [1] [1] [1] 1)
      = Except.ok (initParams [1, 2] [1] [1] [1] 1) :=
  ⟨(synth_construction_validation [("other", CVal.num 1)]).1 rfl,
   (synth_construction_validation
       [("generator_params", CVal.sub [("freq", CVal.vecD [1])])]).2.1
     [("freq", CVal.vecD [1])] rfl (Or.inr (Or.inl rfl)),
   (synth_construction_validation []).2.2.1 [1, 2] [1] [1] [1] 1 (by decide),
   (synth_construction_validation []).2.2.2 [1, 2] [1] [1] [1] 1⟩

/-- Cursor state of HDFSourceSingle: the index bounds `boundsIdx_`
corresponding to the configured [startTime, endTime) window, and the
cursor `currentIdx_`. -/
structure HDFSourceSingle where
  boundsLo : ℕ
  boundsHi : ℕ
  currentIdx : ℕ

/-- From DataSource.h line 126: `dataEnd()` is
`currentIdx_ == boundsIdx_.second`. -/
def HDFSourceSingle.dataEnd (s : HDFSourceSingle) : Bool :=
  s.currentIdx == s.boundsHi

/-- Modelled from the spec: `HDFSourceSingle::reset` (body not among the
sources) restores the cursor to the start bound t0. -/
def HDFSourceSingle.reset (s : HDFSourceSingle) : HDFSourceSingle :=
  { s with currentIdx := s.boundsLo }

/-- Modelled from the spec: `HDFSourceSingle::getData` (body not among the
sources) walks the cursor forward until the configured end bound is
reached. -/
def HDFSourceSingle.advance (s : HDFSourceSingle) : HDFSourceSingle :=
  if s.currentIdx = s.boundsHi then s
  else { s with currentIdx := s.currentIdx + 1 }

/-- The cursor after t advances. -/
def HDFSourceSingle.advanceN (s : HDFSourceSingle) : ℕ → HDFSourceSingle
  | 0 => s
  | t + 1 => (s.advanceN t).advance

/-- From DataSource.h line 61: the DataSourceTick default `dataEnd()`
returns false, and the infinite generator Synth does not override it. -/
def synthDataEnd : SynthState → Bool := fun _ => false

lemma advance_boundsLo (s : HDFSourceSingle) :
    s.advance.boundsLo = s.boundsLo := by
  unfold HDFSourceSingle.advance
  split <;> rfl

lemma advance_boundsHi (s : HDFSourceSingle) :
    s.advance.boundsHi = s.boundsHi := by
  unfold HDFSourceSingle.advance
  split <;> rfl

lemma advanceN_boundsHi (s : HDFSourceSingle) (t : ℕ) :
    (s.advanceN t).boundsHi = s.boundsHi := by
  induction t with
  | zero => rfl
  | succ t ih => rw [HDFSourceSingle.advanceN, advance_boundsHi, ih]

lemma advanceN_currentIdx (s : HDFSourceSingle) (t : ℕ)
    (h : t ≤ s.boundsHi - s.boundsLo) :
    (s.reset.advanceN t).currentIdx = s.boundsLo + t := by
  induction t with
  | zero => rfl
  | succ t ih =>
    have ht : t ≤ s.boundsHi - s.boundsLo := by omega
    rw [HDFSourceSingle.advanceN]
    unfold HDFSourceSingle.advance
    rw [ih ht, advanceN_boundsHi]
    have hne : ¬ (s.boundsLo + t = s.reset.boundsHi) := by
      show ¬ (s.boundsLo + t = s.boundsHi)
      omega
    rw [if_neg hne]
    rfl

/-- C6: after reset, the HDFSourceSingle cursor sits at the start bound t0
and dataEnd() is false while it remains strictly inside the [t0, t1)
window; once the cursor reaches the end bound, dataEnd() is true, and
reset() makes it false again; and the infinite (synthetic) generator
reports dataEnd() = false after any number of advances. -/
theorem dataEnd_window_reset_and_infinite (s : HDFSourceSingle) (t : ℕ) :
    s.reset.currentIdx = s.boundsLo ∧
    (s.boundsLo < s.boundsHi → s.reset.dataEnd = false) ∧
    (t < s.boundsHi - s.boundsLo → (s.reset.advanceN t).dataEnd = false) ∧
    (s.boundsLo ≤ s.boundsHi →
      (s.reset.advanceN (s.boundsHi - s.boundsLo)).dataEnd = true) ∧
    (∀ (y : SynthState) (k : ℕ), synthDataEnd (synthAfter y k) = false) := by
  refine ⟨rfl, ?_, ?_, ?_, fun y k => rfl⟩
  · intro h
    simp only [HDFSourceSingle.dataEnd, HDFSourceSingle.reset,
      beq_eq_false_iff_ne, ne_eq]
    omega
  · intro h
    have hc := advanceN_currentIdx s t (by omega)
    simp only [HDFSourceSingle.dataEnd, beq_eq_false_iff_ne, ne_eq, hc,
      advanceN_boundsHi]
    show ¬ (s.boundsLo + t = s.boundsHi)
    omega
  · intro h
    have hc := advanceN_currentIdx s (s.boundsHi - s.boundsLo) le_rfl
    simp only [HDFSourceSingle.dataEnd, beq_iff_eq, hc, advanceN_boundsHi]
    show s.boundsLo + (s.boundsHi - s.boundsLo) = s.boundsHi
    omega

/-- Witness for C6 at a concrete input: window indices [2, 5), cursor at 9
before reset. -/
theorem dataEnd_window_reset_and_infinite_witness :
    (HDFSourceSingle.mk 2 5 9).reset.currentIdx = 2 ∧
    (HDFSourceSingle.mk 2 5 9).reset.dataEnd = false ∧
    ((HDFSourceSingle.mk 2 5 9).reset.advanceN 1).dataEnd = false ∧
    ((HDFSourceSingle.mk 2 5 9).reset.advanceN 3).dataEnd = true ∧
    synthDataEnd (synthAfter (initParams [] [] [] [] 0) 3) = false := by
  have h := dataEnd_window_reset_and_infinite (HDFSourceSingle.mk 2 5 9) 1
  exact ⟨h.1, h.2.1 (by decide), h.2.2.1 (by decide), h.2.2.2.1 (by decide),
    h.2.2.2.2 (initParams [] [] [] [] 0) 3⟩

/-- State of the Composite source: the owned child sources (the child type
and its reset function are parameters standing for the virtual dispatch
over DataSourceTick), the cached output vectors, the timestamp, and the
feature count. -/
structure Composite (σ : Type) where
  dataSources : List σ
  currentPrices : List ℝ
  currentData : List ℝ
  timestamp : ℕ
  nFeats : ℤ

/-- From DataSource.h lines 202-204: `Composite::reset` iterates the owned
child sources, calling each child's reset, and touches nothing else. -/
def Composite.reset {σ : Type} (childReset : σ → σ) (c : Composite σ) :
    Composite σ :=
  { c with dataSources := c.dataSources.map childReset }

/-- C10: `Composite::reset` applies the child reset to each child source
exactly once (the child list becomes its image under the child reset), and
no other Composite state changes: the timestamp, both cached data vectors,
and the feature count are untouched. -/
theorem composite_reset_resets_children_and_nothing_else {σ : Type}
    (childReset : σ → σ) (c : Composite σ) :
    (Composite.reset childReset c).dataSources = c.dataSources.map childReset ∧
    (Composite.reset childReset c).timestamp = c.timestamp ∧
    (Composite.reset childReset c).currentPrices = c.currentPrices ∧
    (Composite.reset childReset c).currentData = c.currentData ∧
    (Composite.reset childReset c).nFeats = c.nFeats :=
  ⟨rfl, rfl, rfl, rfl, rfl⟩

end Madigan
